import Mathlib

/-!
Verification of the samd21 GPIO layer (`src/samd21/gpio.c`) and of the
step-compression invariant stated by the specification.

The hardware PORT block of the samd21 is modelled as a list of port
groups, each holding the 32-bit `DIR`, `OUT` and `IN` registers and the
byte arrays `PMUX` (16 entries) and `PINCFG` (32 entries).  Every store
into the register block goes through a bounds-checked accessor that
returns `none` when the C code would access the arrays out of range
(which is undefined behaviour in C).  Each store is also logged in a
trace, tagged with the interrupt-enable flag at the moment of the store,
so that the interrupt-protection discipline of `gpio_out_reset` /
`gpio_in_reset` is visible in the model.
-/

/-- One samd21 port group: the 32-bit `DIR`, `OUT`, `IN` registers, the
16-entry `PMUX` byte array and the 32-entry `PINCFG` byte array. -/
structure PortGroup where
  DIR : Nat
  OUT : Nat
  IN : Nat
  PMUX : List Nat
  PINCFG : List Nat
deriving DecidableEq

/-- The `PORT` register block: the array `PORT->Group`. -/
structure PortState where
  Group : List PortGroup
deriving DecidableEq

/-- A logged register store: port-group index, register name, array index
(0 for whole-register stores), stored value, and the interrupt-enable
flag at the moment of the store. -/
structure Event where
  group : Nat
  reg : String
  idx : Nat
  value : Nat
  irqOn : Bool
deriving DecidableEq

/-- Microcontroller state visible to the GPIO layer: the `PORT` block,
the global interrupt-enable flag, and the trace of register stores. -/
structure MCUState where
  port : PortState
  irqEnabled : Bool
  trace : List Event
deriving DecidableEq

/-- `struct gpio_out` from gpio.c: `regs` is the index of the port group
(the C code stores the pointer `&PORT->Group[i]`) and `bit` the pin mask. -/
structure gpio_out where
  regs : Nat
  bit : Nat
deriving DecidableEq

/-- `struct gpio_in` from gpio.c. -/
structure gpio_in where
  regs : Nat
  bit : Nat
deriving DecidableEq

/-- Result of a fallible GPIO entry point: a normal return, the fatal
`shutdown(msg)` path (carrying the machine state at the moment shutdown
is invoked), or an out-of-range register-array access (C undefined
behaviour, kept distinct from the deliberate shutdown path). -/
inductive GpioResult (α : Type) where
  | ok : α → GpioResult α
  | shutdown : String → MCUState → GpioResult α
  | oob : GpioResult α
deriving DecidableEq

/-- `#define NUM_PORT 2` from gpio.c. -/
def NUM_PORT : Nat := 2

/-- `PORT_PINCFG_PMUXEN` (bit 0) from the vendor header samd21.h. -/
def PORT_PINCFG_PMUXEN : Nat := 1

/-- `PORT_PINCFG_PULLEN` (bit 2) from the vendor header samd21.h. -/
def PORT_PINCFG_PULLEN : Nat := 4

/-- `#define GPIO2PORT(PIN) ((PIN) / 32)` from gpio.c. -/
def GPIO2PORT (pin : Nat) : Nat := pin / 32

/-- `#define GPIO2BIT(PIN) (1<<((PIN) % 32))` from gpio.c. -/
def GPIO2BIT (pin : Nat) : Nat := 2 ^ (pin % 32)

/-- Truncation of a stored value to the 32-bit register width. -/
def mask32 (v : Nat) : Nat := v % 2 ^ 32

/-- 32-bit complement of a stored value (the effect of `OUTCLR`/`DIRCLR`
on the corresponding 32-bit register). -/
def compl32 (v : Nat) : Nat := (2 ^ 32 - 1) ^^^ mask32 v

/-- `irq_save()` from board/irq.h: returns the current interrupt flag and
disables interrupts. -/
def irq_save (st : MCUState) : Bool × MCUState :=
  (st.irqEnabled, { st with irqEnabled := false })

/-- `irq_restore(flag)` from board/irq.h. -/
def irq_restore (flag : Bool) (st : MCUState) : MCUState :=
  { st with irqEnabled := flag }

/-- Bounds-checked update of one port group: `none` when the group index
is out of range or when `f` itself reports an out-of-range array access.
Every successful store is logged with the current interrupt flag. -/
def updGroup (st : MCUState) (i : Nat) (reg : String) (idx v : Nat)
    (f : PortGroup → Option PortGroup) : Option MCUState :=
  match st.port.Group.get? i with
  | none => none
  | some pg =>
    match f pg with
    | none => none
    | some pg' =>
      some { st with
        port := ⟨st.port.Group.set i pg'⟩,
        trace := st.trace ++ [⟨i, reg, idx, v, st.irqEnabled⟩] }

/-- Store to `pg->OUTSET.reg`: sets the given bits of `OUT`. -/
def writeOUTSET (st : MCUState) (i v : Nat) : Option MCUState :=
  updGroup st i ("OUTSET") 0 v
    (fun pg => some { pg with OUT := pg.OUT ||| mask32 v })

/-- Store to `pg->OUTCLR.reg`: clears the given bits of `OUT`. -/
def writeOUTCLR (st : MCUState) (i v : Nat) : Option MCUState :=
  updGroup st i ("OUTCLR") 0 v
    (fun pg => some { pg with OUT := pg.OUT &&& compl32 v })

/-- Store to `pg->OUTTGL.reg`: toggles the given bits of `OUT`. -/
def writeOUTTGL (st : MCUState) (i v : Nat) : Option MCUState :=
  updGroup st i ("OUTTGL") 0 v
    (fun pg => some { pg with OUT := pg.OUT ^^^ mask32 v })

/-- Store to `pg->DIRSET.reg`: sets the given bits of `DIR`. -/
def writeDIRSET (st : MCUState) (i v : Nat) : Option MCUState :=
  updGroup st i ("DIRSET") 0 v
    (fun pg => some { pg with DIR := pg.DIR ||| mask32 v })

/-- Store to `pg->DIRCLR.reg`: clears the given bits of `DIR`. -/
def writeDIRCLR (st : MCUState) (i v : Nat) : Option MCUState :=
  updGroup st i ("DIRCLR") 0 v
    (fun pg => some { pg with DIR := pg.DIR &&& compl32 v })

/-- Store to `pg->PINCFG[idx].reg` (an 8-bit register); `none` when `idx`
is outside the 32-entry array. -/
def writePINCFG (st : MCUState) (i idx v : Nat) : Option MCUState :=
  updGroup st i ("PINCFG") idx v
    (fun pg =>
      if idx < pg.PINCFG.length then
        some { pg with PINCFG := pg.PINCFG.set idx (v % 256) }
      else none)

/-- Store to `pg->PMUX[idx].reg`; `none` when `idx` is outside the
16-entry array. -/
def writePMUX (st : MCUState) (i idx v : Nat) : Option MCUState :=
  updGroup st i ("PMUX") idx v
    (fun pg =>
      if idx < pg.PMUX.length then
        some { pg with PMUX := pg.PMUX.set idx (v % 256) }
      else none)

/-- Load from `pg->PMUX[idx].reg`; `none` when out of range. -/
def readPMUX (st : MCUState) (i idx : Nat) : Option Nat :=
  (st.port.Group.get? i).bind fun pg => pg.PMUX.get? idx

/-- Count of trailing zero bits, driven by an explicit fuel (structural
recursion so that concrete evaluation reduces in the kernel); for `n ≥ 1`
a fuel of `n` is always sufficient. -/
def ctzAux : Nat → Nat → Nat
  | 0, _ => 0
  | fuel + 1, n => if n % 2 = 1 then 0 else ctzAux fuel (n / 2) + 1

/-- `ffs` from string.h: 1-based index of the least significant set bit,
0 when the argument is 0. -/
def ffs (n : Nat) : Nat :=
  if n = 0 then 0 else ctzAux n n + 1

/-- `gpio_peripheral(bank, bit, ptype, pull_up)` from gpio.c; characters
are modelled by their byte codes (so bank `'A'` is 65).  The C code
indexes `PMUX[bit/2]` and `PINCFG[bit]` without any range check; the
model returns `none` exactly when such an access is out of range. -/
def gpio_peripheral (bank bit ptype pull_up : Nat) (st0 : MCUState) :
    Option MCUState := do
  let group := if bank = 65 then 0 else 1
  let st1 ←
    if ptype ≠ 0 then do
      let old ← readPMUX st0 group (bit / 2)
      let shift := if bit % 2 = 1 then 4 else 0
      let mask := 255 ^^^ (15 <<< shift)
      writePMUX st0 group (bit / 2)
        (((old &&& mask) ||| ((ptype - 65) <<< shift)) % 256)
    else pure st0
  writePINCFG st1 group bit
    ((if ptype ≠ 0 then PORT_PINCFG_PMUXEN else 0) |||
     (if pull_up ≠ 0 then PORT_PINCFG_PULLEN else 0))

/-- `set_pincfg(pg, bit, cfg)` from gpio.c: stores `cfg` into
`pg->PINCFG[ffs(bit)-1]`; with `bit = 0` the C index is `-1`, an
out-of-range access, modelled as `none`. -/
def set_pincfg (st : MCUState) (i bit cfg : Nat) : Option MCUState :=
  if ffs bit = 0 then none
  else writePINCFG st i (ffs bit - 1) cfg

/-- `gpio_out_reset(g, val)` from gpio.c: under `irq_save`/`irq_restore`,
write the output level (`OUTSET`/`OUTCLR`), set the direction to output
(`DIRSET`) and clear the pin configuration. -/
def gpio_out_reset (g : gpio_out) (val : Nat) (st0 : MCUState) :
    Option MCUState := do
  let (flag, st1) := irq_save st0
  let st2 ← if val ≠ 0 then writeOUTSET st1 g.regs g.bit
            else writeOUTCLR st1 g.regs g.bit
  let st3 ← writeDIRSET st2 g.regs g.bit
  let st4 ← set_pincfg st3 g.regs g.bit 0
  pure (irq_restore flag st4)

/-- `gpio_out_setup(pin, val)` from gpio.c: reject pins whose port index
`pin/32` is not below `NUM_PORT` via `shutdown("Not an output pin")`,
otherwise build the handle and run `gpio_out_reset`. -/
def gpio_out_setup (pin val : Nat) (st : MCUState) :
    GpioResult (gpio_out × MCUState) :=
  if NUM_PORT ≤ GPIO2PORT pin then GpioResult.shutdown ("Not an output pin") st
  else
    match gpio_out_reset { regs := GPIO2PORT pin, bit := GPIO2BIT pin } val st with
    | none => GpioResult.oob
    | some st' => GpioResult.ok ({ regs := GPIO2PORT pin, bit := GPIO2BIT pin }, st')

/-- `gpio_out_toggle_noirq(g)` from gpio.c: a single `OUTTGL` store. -/
def gpio_out_toggle_noirq (g : gpio_out) (st : MCUState) : Option MCUState :=
  writeOUTTGL st g.regs g.bit

/-- `gpio_out_toggle(g)` from gpio.c: delegates to
`gpio_out_toggle_noirq`. -/
def gpio_out_toggle (g : gpio_out) (st : MCUState) : Option MCUState :=
  gpio_out_toggle_noirq g st

/-- `gpio_out_write(g, val)` from gpio.c: `OUTSET` with `g.bit` when
`val` is nonzero, `OUTCLR` with `g.bit` when `val` is zero. -/
def gpio_out_write (g : gpio_out) (val : Nat) (st : MCUState) :
    Option MCUState :=
  if val ≠ 0 then writeOUTSET st g.regs g.bit
  else writeOUTCLR st g.regs g.bit

/-- `gpio_in_reset(g, pull_up)` from gpio.c: under `irq_save`/
`irq_restore`, write the pin configuration (`PULLEN` only when
`pull_up > 0`, a signed comparison on the `int8_t` argument) and clear
the direction bit (`DIRCLR`). -/
def gpio_in_reset (g : gpio_in) (pull_up : Int) (st0 : MCUState) :
    Option MCUState := do
  let (flag, st1) := irq_save st0
  let st2 ← set_pincfg st1 g.regs g.bit
    (if 0 < pull_up then PORT_PINCFG_PULLEN else 0)
  let st3 ← writeDIRCLR st2 g.regs g.bit
  pure (irq_restore flag st3)

/-- `gpio_in_setup(pin, pull_up)` from gpio.c: reject pins whose port
index is not below `NUM_PORT` via `shutdown("Not an input pin")`,
otherwise build the handle and run `gpio_in_reset`. -/
def gpio_in_setup (pin : Nat) (pull_up : Int) (st : MCUState) :
    GpioResult (gpio_in × MCUState) :=
  if NUM_PORT ≤ GPIO2PORT pin then GpioResult.shutdown ("Not an input pin") st
  else
    match gpio_in_reset { regs := GPIO2PORT pin, bit := GPIO2BIT pin } pull_up st with
    | none => GpioResult.oob
    | some st' => GpioResult.ok ({ regs := GPIO2PORT pin, bit := GPIO2BIT pin }, st')

/-- `gpio_in_read(g)` from gpio.c: `!!(pg->IN.reg & g.bit)`. -/
def gpio_in_read (g : gpio_in) (st : MCUState) : Option Nat :=
  (st.port.Group.get? g.regs).bind fun pg =>
    some (if pg.IN &&& g.bit ≠ 0 then 1 else 0)

/-- Well-formed hardware state: the samd21 has `NUM_PORT = 2` port
groups, each with 16 `PMUX` bytes and 32 `PINCFG` bytes. -/
def WF (st : MCUState) : Prop :=
  st.port.Group.length = NUM_PORT ∧
  ∀ pg ∈ st.port.Group, pg.PMUX.length = 16 ∧ pg.PINCFG.length = 32

instance (st : MCUState) : Decidable (WF st) := by
  unfold WF; infer_instance

/-- Observed `OUT` bit `j` of port group `i`. -/
def outBitOf (st : MCUState) (i j : Nat) : Option Bool :=
  (st.port.Group.get? i).map fun pg => pg.OUT.testBit j

/-- Observed `DIR` bit `j` of port group `i`. -/
def dirBitOf (st : MCUState) (i j : Nat) : Option Bool :=
  (st.port.Group.get? i).map fun pg => pg.DIR.testBit j

/-- Observed `PINCFG[idx]` byte of port group `i`. -/
def pinCfgOf (st : MCUState) (i idx : Nat) : Option Nat :=
  (st.port.Group.get? i).bind fun pg => pg.PINCFG.get? idx

/-- Observed whole `DIR` register of port group `i`. -/
def dirOf (st : MCUState) (i : Nat) : Option Nat :=
  (st.port.Group.get? i).map PortGroup.DIR

/-- Observed whole `IN` register of port group `i`. -/
def inRegOf (st : MCUState) (i : Nat) : Option Nat :=
  (st.port.Group.get? i).map PortGroup.IN

/-- Observed whole `PMUX` array of port group `i`. -/
def pmuxArrOf (st : MCUState) (i : Nat) : Option (List Nat) :=
  (st.port.Group.get? i).map PortGroup.PMUX

/-- Observed whole `PINCFG` array of port group `i`. -/
def pinCfgArrOf (st : MCUState) (i : Nat) : Option (List Nat) :=
  (st.port.Group.get? i).map PortGroup.PINCFG

/-- Frame condition: going from `st` to `st'`, at most output bit `j` of
port group `grp` changed — every other port group is untouched, the
`DIR`, `IN`, `PMUX` and `PINCFG` state of group `grp` is untouched, and
every output bit of group `grp` other than `j` is untouched. -/
def frameOK (st st' : MCUState) (grp j : Nat) : Prop :=
  st'.port.Group.length = st.port.Group.length ∧
  (∀ i < st.port.Group.length, i ≠ grp →
    st'.port.Group.get? i = st.port.Group.get? i) ∧
  dirOf st' grp = dirOf st grp ∧
  inRegOf st' grp = inRegOf st grp ∧
  pmuxArrOf st' grp = pmuxArrOf st grp ∧
  pinCfgArrOf st' grp = pinCfgArrOf st grp ∧
  (∀ k < 32, k ≠ j → outBitOf st' grp k = outBitOf st grp k)

instance (st st' : MCUState) (grp j : Nat) : Decidable (frameOK st st' grp j) := by
  unfold frameOK; infer_instance

/-- A port group with all registers zeroed, used as a concrete test
state. -/
def pg0 : PortGroup :=
  { DIR := 0, OUT := 0, IN := 0,
    PMUX := List.replicate 16 0, PINCFG := List.replicate 32 0 }

/-- A concrete well-formed machine state: two zeroed port groups,
interrupts enabled, empty trace. -/
def st0 : MCUState :=
  { port := ⟨[pg0, pg0]⟩, irqEnabled := true, trace := [] }

/-- Modelled from the spec: the `CompressedStepCommand` wire unit of the
Step Time Compressor (§3 of the spec), whose host-side source is not part
of this repository snapshot — `{interval: integer ticks, step_count:
unsigned integer, add: signed integer delta-per-step}`. -/
structure CompressedStepCommand where
  interval : Int
  step_count : Nat
  add : Int
deriving DecidableEq

/-- Modelled from the spec: the greedy run-extension test of the Step
Time Compressor (§4.2).  Starting from gap index `k`, count how many
successive actual gaps are matched by the quadratic prediction
`interval + k*add` within the one-tick rounding tolerance while the
predicted spacing stays at least one tick (the spec's no-zero-or-negative
spacing invariant); the run closes at the first gap that fails. -/
def extendRun (interval add : Int) : Nat → List Int → Nat
  | _, [] => 0
  | k, g :: rest =>
    if (interval + k * add - g).natAbs ≤ 1 ∧ 1 ≤ interval + (k : Int) * add then
      1 + extendRun interval add (k + 1) rest
    else 0

/-- Modelled from the spec: the greedy fold of §4.2/§9 over the gap
sequence, producing one `CompressedStepCommand` per run — `interval` is
the first gap of the run, `add` comes from finite differencing of the
first two gaps (`add = 0` for a final single gap, the zero-acceleration
special case), and the run is extended by `extendRun`.  The fuel argument
only bounds the recursion; a fuel equal to the gap-list length is always
sufficient since every run consumes at least one gap. -/
def compressGapsAux : Nat → List Int → List CompressedStepCommand
  | 0, _ => []
  | _ + 1, [] => []
  | fuel + 1, d1 :: rest =>
    let add : Int := match rest with | [] => 0 | d2 :: _ => d2 - d1
    let ext := extendRun d1 add 1 rest
    ⟨d1, 1 + ext, add⟩ :: compressGapsAux fuel (rest.drop ext)

/-- Modelled from the spec: the tick gaps between successive step-event
times (§4.2: the root-found event times form a monotonically increasing
sequence, converted to the tick domain before compression). -/
def stepGaps : List Int → List Int
  | [] => []
  | [_] => []
  | t0 :: t1 :: rest => (t1 - t0) :: stepGaps (t1 :: rest)

/-- Modelled from the spec: the Step Time Compressor's compression stage
— turn the step-event tick times into gaps and fold the greedy
run-extension over them. -/
def compressStepTimes (times : List Int) : List CompressedStepCommand :=
  compressGapsAux (stepGaps times).length (stepGaps times)

/-! ## Helper lemmas -/

theorem ctzAux_two_pow : ∀ (f j : Nat), j < f → ctzAux f (2 ^ j) = j
  | _ + 1, 0, _ => by simp [ctzAux]
  | f + 1, j + 1, h => by
    have h2 : (2 : Nat) ^ (j + 1) % 2 = 0 := by
      rw [Nat.pow_succ]; exact Nat.mul_mod_left _ 2
    have hd : (2 : Nat) ^ (j + 1) / 2 = 2 ^ j := by
      rw [Nat.pow_succ]; exact Nat.mul_div_cancel _ (by omega)
    simp [ctzAux, h2, hd, ctzAux_two_pow f j (by omega)]

theorem ffs_two_pow (j : Nat) : ffs (2 ^ j) = j + 1 := by
  have hne : (2 : Nat) ^ j ≠ 0 := by positivity
  simp [ffs, hne, ctzAux_two_pow (2 ^ j) j (Nat.lt_two_pow j)]

theorem list_set_get_self {α : Type} (l : List α) (i : Nat) (a : α)
    (h : l.get? i = some a) : l.set i a = l := by
  rw [List.get?_eq_getElem?] at h
  have hi : i < l.length := (List.getElem?_eq_some.mp h).1
  apply List.ext_getElem?
  intro n
  by_cases hn : i = n
  · subst hn; rw [List.getElem?_set_self hi, h]
  · rw [List.getElem?_set_ne hn]

theorem gpio_out_write_eq (g : gpio_out) (val : Nat) (st : MCUState) (pg : PortGroup)
    (hpg : st.port.Group[g.regs]? = some pg) :
    gpio_out_write g val st = some
      { st with
        port := ⟨st.port.Group.set g.regs
          { pg with OUT := if val ≠ 0 then pg.OUT ||| mask32 g.bit
                           else pg.OUT &&& compl32 g.bit }⟩,
        trace := st.trace ++
          [⟨g.regs, if val ≠ 0 then "OUTSET" else "OUTCLR", 0, g.bit, st.irqEnabled⟩] } := by
  by_cases hv : val = 0 <;>
    simp [gpio_out_write, writeOUTSET, writeOUTCLR, updGroup, hpg, hv]

theorem gpio_out_toggle_eq (g : gpio_out) (st : MCUState) (pg : PortGroup)
    (hpg : st.port.Group[g.regs]? = some pg) :
    gpio_out_toggle g st = some
      { st with
        port := ⟨st.port.Group.set g.regs { pg with OUT := pg.OUT ^^^ mask32 g.bit }⟩,
        trace := st.trace ++ [⟨g.regs, "OUTTGL", 0, g.bit, st.irqEnabled⟩] } := by
  simp [gpio_out_toggle, gpio_out_toggle_noirq, writeOUTTGL, updGroup, hpg]

theorem gpio_out_reset_eq (g : gpio_out) (val : Nat) (st : MCUState) (pg : PortGroup) (j : Nat)
    (hpg : st.port.Group[g.regs]? = some pg)
    (hbit : g.bit = 2 ^ j) (hj : j < pg.PINCFG.length) :
    gpio_out_reset g val st = some
      { port := ⟨st.port.Group.set g.regs
          { pg with
            OUT := if val ≠ 0 then pg.OUT ||| mask32 g.bit else pg.OUT &&& compl32 g.bit,
            DIR := pg.DIR ||| mask32 g.bit,
            PINCFG := pg.PINCFG.set j 0 }⟩,
        irqEnabled := st.irqEnabled,
        trace := st.trace ++
          [⟨g.regs, if val ≠ 0 then "OUTSET" else "OUTCLR", 0, g.bit, false⟩,
           ⟨g.regs, "DIRSET", 0, g.bit, false⟩,
           ⟨g.regs, "PINCFG", j, 0, false⟩] } := by
  have hi : g.regs < st.port.Group.length := (List.getElem?_eq_some.mp hpg).1
  have hffs : ffs g.bit = j + 1 := by rw [hbit]; exact ffs_two_pow j
  by_cases hv : val = 0 <;>
    simp [gpio_out_reset, irq_save, irq_restore, writeOUTSET, writeOUTCLR, writeDIRSET,
      set_pincfg, writePINCFG, updGroup, hpg, hv, hffs, hi, hj, List.set_set]

theorem gpio_in_reset_eq (g : gpio_in) (pull : Int) (st : MCUState) (pg : PortGroup) (j : Nat)
    (hpg : st.port.Group[g.regs]? = some pg)
    (hbit : g.bit = 2 ^ j) (hj : j < pg.PINCFG.length) :
    gpio_in_reset g pull st = some
      { port := ⟨st.port.Group.set g.regs
          { pg with
            DIR := pg.DIR &&& compl32 g.bit,
            PINCFG := pg.PINCFG.set j (if 0 < pull then PORT_PINCFG_PULLEN else 0) }⟩,
        irqEnabled := st.irqEnabled,
        trace := st.trace ++
          [⟨g.regs, "PINCFG", j, (if 0 < pull then PORT_PINCFG_PULLEN else 0), false⟩,
           ⟨g.regs, "DIRCLR", 0, g.bit, false⟩] } := by
  have hi : g.regs < st.port.Group.length := (List.getElem?_eq_some.mp hpg).1
  have hffs : ffs g.bit = j + 1 := by rw [hbit]; exact ffs_two_pow j
  by_cases hp : 0 < pull <;>
    simp [gpio_in_reset, irq_save, irq_restore, writeDIRCLR,
      set_pincfg, writePINCFG, updGroup, hpg, hp, hffs, hi, hj, List.set_set,
      PORT_PINCFG_PULLEN]

theorem WF_group (st : MCUState) (hwf : WF st) (i : Nat) (hi : i < NUM_PORT) :
    ∃ pg, st.port.Group[i]? = some pg ∧ pg.PMUX.length = 16 ∧ pg.PINCFG.length = 32 := by
  obtain ⟨hlen, hall⟩ := hwf
  have hi' : i < st.port.Group.length := hlen ▸ hi
  exact ⟨st.port.Group[i], by simp [hi'], hall _ (st.port.Group.getElem_mem hi')⟩

theorem gpio_out_setup_ok_inv (pin val : Nat) (st st' : MCUState) (g : gpio_out)
    (h : gpio_out_setup pin val st = GpioResult.ok (g, st')) :
    pin < 64 ∧ g.regs = pin / 32 ∧ g.bit = 2 ^ (pin % 32) := by
  unfold gpio_out_setup at h
  by_cases hp : NUM_PORT ≤ GPIO2PORT pin
  · rw [if_pos hp] at h
    exact absurd h (by simp)
  · rw [if_neg hp] at h
    have hpin : pin < 64 := by
      simp only [NUM_PORT, GPIO2PORT] at hp; omega
    refine ⟨hpin, ?_⟩
    split at h
    · exact absurd h (by simp)
    · simp only [GpioResult.ok.injEq, Prod.mk.injEq] at h
      obtain ⟨hg, _⟩ := h
      rw [← hg]
      exact ⟨rfl, rfl⟩

/-! ## Claim theorems -/

/-- C1: for every pin whose port index `pin/32` is not below `NUM_PORT = 2`
(i.e. `pin ≥ 64`), `gpio_out_setup` and `gpio_in_setup` do not return a
handle but invoke the fatal shutdown path (`shutdown("Not an output pin")`
resp. `shutdown("Not an input pin")`); for every `pin < 64` they return a
handle without invoking shutdown. -/
theorem gpio_setup_pin_range (pin val : Nat) (pull : Int) (st : MCUState)
    (hpin : pin < 256) (hwf : WF st) :
    (64 ≤ pin →
      gpio_out_setup pin val st = GpioResult.shutdown ("Not an output pin") st ∧
      gpio_in_setup pin pull st = GpioResult.shutdown ("Not an input pin") st) ∧
    (pin < 64 →
      (∃ g st', gpio_out_setup pin val st = GpioResult.ok (g, st')) ∧
      (∃ g st', gpio_in_setup pin pull st = GpioResult.ok (g, st'))) := by
  constructor
  · intro h64
    have hge : NUM_PORT ≤ GPIO2PORT pin := by
      simp only [NUM_PORT, GPIO2PORT]; omega
    constructor
    · unfold gpio_out_setup; rw [if_pos hge]
    · unfold gpio_in_setup; rw [if_pos hge]
  · intro h64
    have hlt : ¬ NUM_PORT ≤ GPIO2PORT pin := by
      simp only [NUM_PORT, GPIO2PORT]; omega
    obtain ⟨pg, hpg, _, hcfg⟩ := WF_group st hwf (pin / 32)
      (by simp only [NUM_PORT]; omega)
    have hj : pin % 32 < pg.PINCFG.length := by rw [hcfg]; omega
    constructor
    · have hr := gpio_out_reset_eq ⟨GPIO2PORT pin, GPIO2BIT pin⟩ val st pg (pin % 32)
        hpg rfl hj
      cases hres : gpio_out_setup pin val st with
      | ok p => exact ⟨p.1, p.2, rfl⟩
      | shutdown m s =>
        unfold gpio_out_setup at hres
        rw [if_neg hlt, hr] at hres
        exact absurd hres (by simp)
      | oob =>
        unfold gpio_out_setup at hres
        rw [if_neg hlt, hr] at hres
        exact absurd hres (by simp)
    · have hr := gpio_in_reset_eq ⟨GPIO2PORT pin, GPIO2BIT pin⟩ pull st pg (pin % 32)
        hpg rfl hj
      cases hres : gpio_in_setup pin pull st with
      | ok p => exact ⟨p.1, p.2, rfl⟩
      | shutdown m s =>
        unfold gpio_in_setup at hres
        rw [if_neg hlt, hr] at hres
        exact absurd hres (by simp)
      | oob =>
        unfold gpio_in_setup at hres
        rw [if_neg hlt, hr] at hres
        exact absurd hres (by simp)

/-- Witness for C1 at concrete inputs: pin 5 yields a handle, pin 200
triggers the shutdown path. -/
theorem gpio_setup_pin_range_witness :
    (∃ g st', gpio_out_setup 5 1 st0 = GpioResult.ok (g, st')) ∧
    gpio_out_setup 200 1 st0 = GpioResult.shutdown ("Not an output pin") st0 :=
  ⟨((gpio_setup_pin_range 5 1 0 st0 (by decide) (by decide)).2 (by decide)).1,
   ((gpio_setup_pin_range 200 1 0 st0 (by decide) (by decide)).1 (by decide)).1⟩

/-- C3: when `gpio_out_setup` or `gpio_in_setup` is called with an invalid
pin (`pin/32 ≥ 2`), no hardware register is written before the fatal
shutdown is triggered — the `shutdown` result carries exactly the entry
state: the `PORT` block and the store trace are unchanged. -/
theorem gpio_setup_invalid_pin_no_partial_write (pin val : Nat) (pull : Int)
    (st : MCUState) (h64 : 64 ≤ pin) :
    (∃ st', gpio_out_setup pin val st = GpioResult.shutdown ("Not an output pin") st' ∧
      st'.port = st.port ∧ st'.trace = st.trace) ∧
    (∃ st', gpio_in_setup pin pull st = GpioResult.shutdown ("Not an input pin") st' ∧
      st'.port = st.port ∧ st'.trace = st.trace) := by
  have hge : NUM_PORT ≤ GPIO2PORT pin := by
    simp only [NUM_PORT, GPIO2PORT]; omega
  exact ⟨⟨st, by unfold gpio_out_setup; rw [if_pos hge], rfl, rfl⟩,
         ⟨st, by unfold gpio_in_setup; rw [if_pos hge], rfl, rfl⟩⟩

/-- Witness for C3 at pin 100. -/
theorem gpio_setup_invalid_pin_no_partial_write_witness :
    ∃ st', gpio_out_setup 100 1 st0 = GpioResult.shutdown ("Not an output pin") st' ∧
      st'.port = st0.port ∧ st'.trace = st0.trace :=
  (gpio_setup_invalid_pin_no_partial_write 100 1 0 st0 (by decide)).1

/-- C2 is refuted: it is not true that for all argument values every
index used into the Group, PMUX and PINCFG arrays is verified to be in
range before the access — `gpio_peripheral` with `bit = 32` stores to
`PINCFG[32]`, one past the end of the 32-entry array, with no check
(modelled as `none`), even on a well-formed state. -/
theorem gpio_indices_checked_refuted :
    ¬ (∀ bank bit ptype pull_up : Nat, ∀ st : MCUState,
        WF st → gpio_peripheral bank bit ptype pull_up st ≠ none) :=
  fun h => h 65 32 0 0 st0 (by decide) (by decide)

/-- C2 amended: `gpio_out_setup` and `gpio_in_setup` never perform an
out-of-range access into the Group, PMUX or PINCFG arrays for any
argument value (the Group index is guarded by the `pin/32 < NUM_PORT`
check and the PINCFG index `pin % 32` is in range by construction);
`gpio_peripheral` performs no range check of its own — its Group index is
always in range, but its PMUX and PINCFG indices are in range only when
`bit < 32`, which callers must guarantee. -/
theorem gpio_indices_checked_amended :
    (∀ pin val : Nat, ∀ st : MCUState, WF st →
      gpio_out_setup pin val st ≠ GpioResult.oob) ∧
    (∀ pin : Nat, ∀ pull : Int, ∀ st : MCUState, WF st →
      gpio_in_setup pin pull st ≠ GpioResult.oob) ∧
    (∀ bank bit ptype pull_up : Nat, ∀ st : MCUState, WF st → bit < 32 →
      gpio_peripheral bank bit ptype pull_up st ≠ none) := by
  refine ⟨?_, ?_, ?_⟩
  · intro pin val st hwf hoob
    by_cases hp : NUM_PORT ≤ GPIO2PORT pin
    · unfold gpio_out_setup at hoob
      rw [if_pos hp] at hoob
      exact absurd hoob (by simp)
    · obtain ⟨pg, hpg, _, hcfg⟩ := WF_group st hwf (pin / 32)
        (by simp only [NUM_PORT, GPIO2PORT] at hp ⊢; omega)
      have hj : pin % 32 < pg.PINCFG.length := by rw [hcfg]; omega
      have hr := gpio_out_reset_eq ⟨GPIO2PORT pin, GPIO2BIT pin⟩ val st pg (pin % 32)
        hpg rfl hj
      unfold gpio_out_setup at hoob
      rw [if_neg hp, hr] at hoob
      exact absurd hoob (by simp)
  · intro pin pull st hwf hoob
    by_cases hp : NUM_PORT ≤ GPIO2PORT pin
    · unfold gpio_in_setup at hoob
      rw [if_pos hp] at hoob
      exact absurd hoob (by simp)
    · obtain ⟨pg, hpg, _, hcfg⟩ := WF_group st hwf (pin / 32)
        (by simp only [NUM_PORT, GPIO2PORT] at hp ⊢; omega)
      have hj : pin % 32 < pg.PINCFG.length := by rw [hcfg]; omega
      have hr := gpio_in_reset_eq ⟨GPIO2PORT pin, GPIO2BIT pin⟩ pull st pg (pin % 32)
        hpg rfl hj
      unfold gpio_in_setup at hoob
      rw [if_neg hp, hr] at hoob
      exact absurd hoob (by simp)
  · intro bank bit ptype pull_up st hwf hbit
    have hg2 : (if bank = 65 then 0 else 1) < NUM_PORT := by
      split <;> simp [NUM_PORT]
    obtain ⟨pg, hpg, hpmux, hcfg⟩ := WF_group st hwf (if bank = 65 then 0 else 1) hg2
    have hglen : (if bank = 65 then 0 else 1) < st.port.Group.length :=
      (List.getElem?_eq_some.mp hpg).1
    have hd2 : bit / 2 < pg.PMUX.length := by rw [hpmux]; omega
    have hcfg' : bit < pg.PINCFG.length := by rw [hcfg]; omega
    by_cases hptype : ptype = 0
    · simp [gpio_peripheral, hptype, writePINCFG, updGroup, hpg, hcfg']
    · simp [gpio_peripheral, hptype, readPMUX, writePMUX, writePINCFG, updGroup,
        hpg, hd2, hcfg', hglen, List.getElem?_set_self]

theorem mask32_two_pow (j : Nat) (hj : j < 32) : mask32 (2 ^ j) = 2 ^ j :=
  Nat.mod_eq_of_lt (Nat.pow_lt_pow_right (by omega) hj)

theorem outBit_set_self (a j : Nat) (hj : j < 32) :
    (a ||| mask32 (2 ^ j)).testBit j = true := by
  simp [mask32_two_pow j hj, Nat.testBit_or, Nat.testBit_two_pow_self]

theorem allones32_testBit (i : Nat) (hi : i < 32) :
    Nat.testBit 4294967295 i = true := by
  have h : (4294967295 : Nat) = 2 ^ 32 - 1 := by norm_num
  rw [h, Nat.testBit_two_pow_sub_one]
  simp [hi]

theorem outBit_clear_self (a j : Nat) (hj : j < 32) :
    (a &&& compl32 (2 ^ j)).testBit j = false := by
  simp [compl32, mask32_two_pow j hj, Nat.testBit_and, Nat.testBit_xor,
    allones32_testBit j hj, Nat.testBit_two_pow_self, hj]

theorem outBit_toggle_self (a j : Nat) (hj : j < 32) :
    (a ^^^ mask32 (2 ^ j)).testBit j = !(a.testBit j) := by
  simp [mask32_two_pow j hj, Nat.testBit_xor, Nat.testBit_two_pow_self]

theorem outBit_set_other (a j k : Nat) (hj : j < 32) (hk : k ≠ j) :
    (a ||| mask32 (2 ^ j)).testBit k = a.testBit k := by
  simp [mask32_two_pow j hj, Nat.testBit_or,
    Nat.testBit_two_pow_of_ne (fun h => hk h.symm)]

theorem outBit_clear_other (a j k : Nat) (hj : j < 32) (hk32 : k < 32) (hk : k ≠ j) :
    (a &&& compl32 (2 ^ j)).testBit k = a.testBit k := by
  simp [compl32, mask32_two_pow j hj, Nat.testBit_and, Nat.testBit_xor,
    allones32_testBit k hk32, Nat.testBit_two_pow_of_ne (fun h => hk h.symm)]

theorem outBit_toggle_other (a j k : Nat) (hj : j < 32) (hk : k ≠ j) :
    (a ^^^ mask32 (2 ^ j)).testBit k = a.testBit k := by
  simp [mask32_two_pow j hj, Nat.testBit_xor,
    Nat.testBit_two_pow_of_ne (fun h => hk h.symm)]

/-- C4: for every `gpio_out` handle `g` returned by `gpio_out_setup` and
every value `val`, `gpio_out_write g val` drives the pin's output level
high — `OUTSET` written with `g.bit` — when `val` is nonzero, and low —
`OUTCLR` written with `g.bit` — when `val` is zero. -/
theorem gpio_out_write_drives_level (pin val0 val : Nat) (st stA st' : MCUState)
    (g : gpio_out)
    (hsetup : gpio_out_setup pin val0 st = GpioResult.ok (g, stA))
    (hwf : WF st') :
    ∃ st'', gpio_out_write g val st' = some st'' ∧
      outBitOf st'' g.regs (pin % 32) = some (if val ≠ 0 then true else false) ∧
      st''.trace = st'.trace ++
        [⟨g.regs, if val ≠ 0 then "OUTSET" else "OUTCLR", 0, g.bit, st'.irqEnabled⟩] := by
  obtain ⟨hpin, hregs, hbit⟩ := gpio_out_setup_ok_inv pin val0 st stA g hsetup
  obtain ⟨pg, hpg, -, -⟩ := WF_group st' hwf g.regs
    (by rw [hregs]; simp only [NUM_PORT]; omega)
  have hlen : g.regs < st'.port.Group.length := (List.getElem?_eq_some.mp hpg).1
  have hj : pin % 32 < 32 := by omega
  refine ⟨_, gpio_out_write_eq g val st' pg hpg, ?_, rfl⟩
  by_cases hv : val = 0 <;>
    simp [outBitOf, List.getElem?_set_self hlen, hv, hbit,
      outBit_set_self _ _ hj, outBit_clear_self _ _ hj]

/-- Witness for C4: writing 1 then 0 on the handle for pin 5. -/
theorem gpio_out_write_drives_level_witness :
    ∃ st'', gpio_out_write ⟨0, 32⟩ 1 st0 = some st'' ∧
      outBitOf st'' (0 : Nat) (5 % 32) = some (if (1 : Nat) ≠ 0 then true else false) ∧
      st''.trace = st0.trace ++
        [⟨(0 : Nat), if (1 : Nat) ≠ 0 then "OUTSET" else "OUTCLR", 0, 32, st0.irqEnabled⟩] :=
  gpio_out_write_drives_level 5 0 1 st0
    { port := ⟨[{ DIR := 32, OUT := 0, IN := 0,
                  PMUX := List.replicate 16 0, PINCFG := List.replicate 32 0 }, pg0]⟩,
      irqEnabled := true,
      trace := [⟨0, "OUTCLR", 0, 32, false⟩, ⟨0, "DIRSET", 0, 32, false⟩,
                ⟨0, "PINCFG", 5, 0, false⟩] }
    st0 ⟨0, 32⟩ (by decide) (by decide)

theorem frameOK_out_update (st : MCUState) (pg : PortGroup) (grp j o : Nat)
    (hpg : st.port.Group[grp]? = some pg)
    (hout : ∀ k, k < 32 → k ≠ j → o.testBit k = pg.OUT.testBit k)
    (b : Bool) (tr : List Event) :
    frameOK st { port := ⟨st.port.Group.set grp { pg with OUT := o }⟩,
                 irqEnabled := b, trace := tr } grp j := by
  have hlen : grp < st.port.Group.length := (List.getElem?_eq_some.mp hpg).1
  refine ⟨by simp, ?_, ?_, ?_, ?_, ?_, ?_⟩
  · intro i _ hne
    simp only [List.get?_eq_getElem?]
    exact List.getElem?_set_ne (fun h => hne h.symm)
  · simp [dirOf, List.getElem?_set_self hlen, hpg]
  · simp [inRegOf, List.getElem?_set_self hlen, hpg]
  · simp [pmuxArrOf, List.getElem?_set_self hlen, hpg]
  · simp [pinCfgArrOf, List.getElem?_set_self hlen, hpg]
  · intro k hk hne
    simp [outBitOf, List.getElem?_set_self hlen, hpg, hout k hk hne]

/-- C5: for every `gpio_out` handle for pin `p`, `gpio_out_write` and
`gpio_out_toggle` change at most the single output bit `p % 32` of the
handle's port group: the output bits of every other pin, every other port
group, and all direction and pin-configuration registers are unchanged. -/
theorem gpio_out_single_bit_frame (pin val0 val : Nat) (st stA st' : MCUState)
    (g : gpio_out)
    (hsetup : gpio_out_setup pin val0 st = GpioResult.ok (g, stA))
    (hwf : WF st') :
    (∃ st'', gpio_out_write g val st' = some st'' ∧
       frameOK st' st'' (pin / 32) (pin % 32)) ∧
    (∃ st'', gpio_out_toggle g st' = some st'' ∧
       frameOK st' st'' (pin / 32) (pin % 32)) := by
  obtain ⟨hpin, hregs, hbit⟩ := gpio_out_setup_ok_inv pin val0 st stA g hsetup
  obtain ⟨pg, hpg, -, -⟩ := WF_group st' hwf g.regs
    (by rw [hregs]; simp only [NUM_PORT]; omega)
  have hj : pin % 32 < 32 := by omega
  have hout1 : ∀ k, k < 32 → k ≠ pin % 32 →
      (if val ≠ 0 then pg.OUT ||| mask32 g.bit
       else pg.OUT &&& compl32 g.bit).testBit k = pg.OUT.testBit k := by
    intro k hk hkj
    by_cases hv : val = 0 <;>
      simp [hv, hbit, outBit_set_other _ _ _ hj hkj, outBit_clear_other _ _ _ hj hk hkj]
  have hout2 : ∀ k, k < 32 → k ≠ pin % 32 →
      (pg.OUT ^^^ mask32 g.bit).testBit k = pg.OUT.testBit k := by
    intro k hk hkj
    simp [hbit, outBit_toggle_other _ _ _ hj hkj]
  constructor
  · refine ⟨_, gpio_out_write_eq g val st' pg hpg, ?_⟩
    rw [← hregs]
    exact frameOK_out_update st' pg g.regs (pin % 32) _ hpg hout1 _ _
  · refine ⟨_, gpio_out_toggle_eq g st' pg hpg, ?_⟩
    rw [← hregs]
    exact frameOK_out_update st' pg g.regs (pin % 32) _ hpg hout2 _ _

/-- Witness for C5 on the handle for pin 5 over the concrete state. -/
theorem gpio_out_single_bit_frame_witness :
    (∃ st'', gpio_out_write ⟨0, 32⟩ 1 st0 = some st'' ∧
       frameOK st0 st'' (5 / 32) (5 % 32)) ∧
    (∃ st'', gpio_out_toggle ⟨0, 32⟩ st0 = some st'' ∧
       frameOK st0 st'' (5 / 32) (5 % 32)) :=
  gpio_out_single_bit_frame 5 0 1 st0
    { port := ⟨[{ DIR := 32, OUT := 0, IN := 0,
                  PMUX := List.replicate 16 0, PINCFG := List.replicate 32 0 }, pg0]⟩,
      irqEnabled := true,
      trace := [⟨0, "OUTCLR", 0, 32, false⟩, ⟨0, "DIRSET", 0, 32, false⟩,
                ⟨0, "PINCFG", 5, 0, false⟩] }
    st0 ⟨0, 32⟩ (by decide) (by decide)

/-- C6: `gpio_out_toggle` is an involution on the pin's output state — a
single call inverts the pin's output bit, and applying it twice restores
the whole `PORT` block (and the interrupt flag) that held before the
first call. -/
theorem gpio_out_toggle_involution (pin val0 : Nat) (st stA st' : MCUState)
    (g : gpio_out)
    (hsetup : gpio_out_setup pin val0 st = GpioResult.ok (g, stA))
    (hwf : WF st') :
    ∃ st1 st2, gpio_out_toggle g st' = some st1 ∧ gpio_out_toggle g st1 = some st2 ∧
      outBitOf st1 g.regs (pin % 32) =
        (outBitOf st' g.regs (pin % 32)).map (fun b => !b) ∧
      st2.port = st'.port ∧ st2.irqEnabled = st'.irqEnabled := by
  obtain ⟨hpin, hregs, hbit⟩ := gpio_out_setup_ok_inv pin val0 st stA g hsetup
  obtain ⟨pg, hpg, -, -⟩ := WF_group st' hwf g.regs
    (by rw [hregs]; simp only [NUM_PORT]; omega)
  have hlen : g.regs < st'.port.Group.length := (List.getElem?_eq_some.mp hpg).1
  have hj : pin % 32 < 32 := by omega
  refine ⟨_, _, gpio_out_toggle_eq g st' pg hpg,
    gpio_out_toggle_eq g _ _ (List.getElem?_set_self hlen), ?_, ?_, rfl⟩
  · simp [outBitOf, List.getElem?_set_self hlen, hpg, hbit,
      outBit_toggle_self _ _ hj]
  · have hcancel : ({ pg with OUT := (pg.OUT ^^^ mask32 g.bit) ^^^ mask32 g.bit } :
        PortGroup) = pg := by
      simp [Nat.xor_cancel_right]
    simp only [List.set_set, hcancel]
    simp [list_set_get_self _ _ _ (by rw [List.get?_eq_getElem?]; exact hpg)]

/-- Witness for C6 on the handle for pin 5 over the concrete state. -/
theorem gpio_out_toggle_involution_witness :
    ∃ st1 st2, gpio_out_toggle ⟨0, 32⟩ st0 = some st1 ∧
      gpio_out_toggle ⟨0, 32⟩ st1 = some st2 ∧
      outBitOf st1 (0 : Nat) (5 % 32) =
        (outBitOf st0 (0 : Nat) (5 % 32)).map (fun b => !b) ∧
      st2.port = st0.port ∧ st2.irqEnabled = st0.irqEnabled :=
  gpio_out_toggle_involution 5 0 st0
    { port := ⟨[{ DIR := 32, OUT := 0, IN := 0,
                  PMUX := List.replicate 16 0, PINCFG := List.replicate 32 0 }, pg0]⟩,
      irqEnabled := true,
      trace := [⟨0, "OUTCLR", 0, 32, false⟩, ⟨0, "DIRSET", 0, 32, false⟩,
                ⟨0, "PINCFG", 5, 0, false⟩] }
    st0 ⟨0, 32⟩ (by decide) (by decide)

/-- C7: throughout `gpio_out_reset g val` — the output-level write, the
direction write and the pin-configuration write — interrupts are
disabled: `irq_save` runs before the first register store and
`irq_restore` after the last, so every store appended to the trace by the
call carries an interrupts-disabled tag and the interrupt flag is
restored to its entry value afterwards; no interrupt context can observe
the pin half-configured. -/
theorem gpio_out_reset_irq_protected (g : gpio_out) (val : Nat) (st : MCUState)
    (pg : PortGroup) (j : Nat)
    (hpg : st.port.Group[g.regs]? = some pg)
    (hbit : g.bit = 2 ^ j) (hj : j < pg.PINCFG.length) :
    ∃ st', gpio_out_reset g val st = some st' ∧
      st'.irqEnabled = st.irqEnabled ∧
      st'.trace.take st.trace.length = st.trace ∧
      st'.trace.length = st.trace.length + 3 ∧
      ∀ e ∈ st'.trace.drop st.trace.length, e.irqOn = false := by
  refine ⟨_, gpio_out_reset_eq g val st pg j hpg hbit hj, rfl, ?_, ?_, ?_⟩
  · exact List.take_left _ _
  · simp
  · rw [List.drop_left]
    intro e he
    simp only [List.mem_cons, List.not_mem_nil, or_false] at he
    rcases he with h | h | h <;> simp [h]

/-- Witness for C7 on the handle for pin 3 (bit mask 8) over the concrete
state. -/
theorem gpio_out_reset_irq_protected_witness :
    ∃ st', gpio_out_reset ⟨0, 8⟩ 1 st0 = some st' ∧
      st'.irqEnabled = st0.irqEnabled ∧
      st'.trace.take st0.trace.length = st0.trace ∧
      st'.trace.length = st0.trace.length + 3 ∧
      ∀ e ∈ st'.trace.drop st0.trace.length, e.irqOn = false :=
  gpio_out_reset_irq_protected ⟨0, 8⟩ 1 st0 pg0 3 (by decide) (by decide) (by decide)

/-- C8: for every valid pin and every `pull_up ≤ 0` (including negative
values that would request a pull-down), `gpio_in_setup` configures the
pin as an input with no pull resistor enabled — the `PINCFG` byte is
written as 0 and the direction bit cleared; the pull is enabled exactly
when `pull_up > 0`, so a negative `pull_up` is silently treated as no
pull. -/
theorem gpio_in_setup_pull_semantics (pin : Nat) (pull : Int) (st : MCUState)
    (hpin : pin < 64) (hwf : WF st) :
    ∃ g st', gpio_in_setup pin pull st = GpioResult.ok (g, st') ∧
      pinCfgOf st' (pin / 32) (pin % 32) =
        some (if 0 < pull then PORT_PINCFG_PULLEN else 0) ∧
      dirBitOf st' (pin / 32) (pin % 32) = some false ∧
      (pull ≤ 0 → pinCfgOf st' (pin / 32) (pin % 32) = some 0) := by
  have hlt : ¬ NUM_PORT ≤ GPIO2PORT pin := by
    simp only [NUM_PORT, GPIO2PORT]; omega
  obtain ⟨pg, hpg, -, hcfg⟩ := WF_group st hwf (pin / 32)
    (by simp only [NUM_PORT]; omega)
  have hj : pin % 32 < pg.PINCFG.length := by rw [hcfg]; omega
  have hlen : pin / 32 < st.port.Group.length := (List.getElem?_eq_some.mp hpg).1
  have hj32 : pin % 32 < 32 := by omega
  have hr := gpio_in_reset_eq ⟨GPIO2PORT pin, GPIO2BIT pin⟩ pull st pg (pin % 32)
    hpg rfl hj
  have hok : gpio_in_setup pin pull st = GpioResult.ok
      (⟨GPIO2PORT pin, GPIO2BIT pin⟩,
       { port := ⟨st.port.Group.set (pin / 32)
           { pg with
             DIR := pg.DIR &&& compl32 (GPIO2BIT pin),
             PINCFG := pg.PINCFG.set (pin % 32)
               (if 0 < pull then PORT_PINCFG_PULLEN else 0) }⟩,
         irqEnabled := st.irqEnabled,
         trace := st.trace ++
           [⟨pin / 32, "PINCFG", pin % 32,
             (if 0 < pull then PORT_PINCFG_PULLEN else 0), false⟩,
            ⟨pin / 32, "DIRCLR", 0, GPIO2BIT pin, false⟩] }) := by
    unfold gpio_in_setup
    rw [if_neg hlt, hr]
    rfl
  refine ⟨_, _, hok, ?_, ?_, ?_⟩
  · simp [pinCfgOf, List.getElem?_set_self hlen, List.getElem?_set_self hj]
  · simp [dirBitOf, List.getElem?_set_self hlen, GPIO2BIT,
      outBit_clear_self _ _ hj32]
  · intro hp
    simp [pinCfgOf, List.getElem?_set_self hlen, List.getElem?_set_self hj,
      not_lt.mpr hp]

/-- Witness for C8 at pin 5 with `pull_up = -1`. -/
theorem gpio_in_setup_pull_semantics_witness :
    ∃ g st', gpio_in_setup 5 (-1) st0 = GpioResult.ok (g, st') ∧
      pinCfgOf st' (5 / 32) (5 % 32) =
        some (if (0 : Int) < -1 then PORT_PINCFG_PULLEN else 0) ∧
      dirBitOf st' (5 / 32) (5 % 32) = some false ∧
      ((-1 : Int) ≤ 0 → pinCfgOf st' (5 / 32) (5 % 32) = some 0) :=
  gpio_in_setup_pull_semantics 5 (-1) st0 (by decide) (by decide)

theorem stepGaps_pos : ∀ (times : List Int), List.Chain' (· < ·) times →
    ∀ g ∈ stepGaps times, 1 ≤ g
  | [], _, g, hg => by simp [stepGaps] at hg
  | [_], _, g, hg => by simp [stepGaps] at hg
  | t0 :: t1 :: rest, hch, g, hg => by
    simp only [stepGaps] at hg
    rcases List.mem_cons.mp hg with h | h
    · have h01 : t0 < t1 := (List.chain'_cons.mp hch).1
      omega
    · exact stepGaps_pos (t1 :: rest) (List.chain'_cons.mp hch).2 g h

theorem extendRun_last (interval add : Int) :
    ∀ (l : List Int) (k : Nat), 0 < extendRun interval add k l →
      1 ≤ interval + ((k + extendRun interval add k l - 1 : Nat) : Int) * add
  | [], k, h => by simp [extendRun] at h
  | g :: rest, k, h => by
    by_cases hcond : (interval + (k : Int) * add - g).natAbs ≤ 1 ∧
        1 ≤ interval + (k : Int) * add
    · simp only [extendRun, if_pos hcond]
      by_cases h0 : extendRun interval add (k + 1) rest = 0
      · rw [h0]
        simpa using hcond.2
      · have ih := extendRun_last interval add rest (k + 1) (Nat.pos_of_ne_zero h0)
        have harith : (k + 1 + extendRun interval add (k + 1) rest - 1 : Nat)
            = (k + (1 + extendRun interval add (k + 1) rest) - 1 : Nat) := by omega
        rw [harith] at ih
        exact ih
    · rw [extendRun, if_neg hcond] at h
      exact absurd h (by simp)

theorem compressGapsAux_spacing : ∀ (fuel : Nat) (gaps : List Int),
    (∀ g ∈ gaps, 1 ≤ g) →
    ∀ c ∈ compressGapsAux fuel gaps,
      1 ≤ c.interval + ((c.step_count - 1 : Nat) : Int) * c.add
  | 0, gaps, _, c, hc => by simp [compressGapsAux] at hc
  | _ + 1, [], _, c, hc => by simp [compressGapsAux] at hc
  | fuel + 1, [d1], hpos, c, hc => by
    simp only [compressGapsAux] at hc
    rcases List.mem_cons.mp hc with h | h
    · rw [h]
      have hd1 : 1 ≤ d1 := hpos d1 (List.mem_cons_self d1 [])
      simp [extendRun]
      omega
    · cases fuel <;> simp [compressGapsAux] at h
  | fuel + 1, d1 :: d2 :: rest, hpos, c, hc => by
    simp only [compressGapsAux] at hc
    have hd1 : 1 ≤ d1 := hpos d1 (List.mem_cons_self d1 (d2 :: rest))
    rcases List.mem_cons.mp hc with h | h
    · rw [h]
      by_cases h0 : extendRun d1 (d2 - d1) 1 (d2 :: rest) = 0
      · simp [h0]
        omega
      · have hlast := extendRun_last d1 (d2 - d1) (d2 :: rest) 1
          (Nat.pos_of_ne_zero h0)
        simpa using hlast
    · exact compressGapsAux_spacing fuel _
        (fun g hg => hpos g (List.mem_cons_of_mem _ (List.mem_of_mem_drop hg))) c h

/-- C9: every `CompressedStepCommand` produced by the Step Time
Compressor (modelled from the spec, given strictly increasing step-event
tick times) satisfies `interval + (step_count - 1) * add ≥ 1` — no two
consecutive step pulses in a command are scheduled with zero or negative
tick spacing. -/
theorem compressed_step_command_spacing (times : List Int)
    (hmono : List.Chain' (· < ·) times) :
    ∀ c ∈ compressStepTimes times,
      1 ≤ c.interval + ((c.step_count - 1 : Nat) : Int) * c.add := by
  intro c hc
  exact compressGapsAux_spacing (stepGaps times).length (stepGaps times)
    (stepGaps_pos times hmono) c hc

/-- Witness for C9 on the concrete step times 0, 10, 20, 31, 33, whose
compression starts with the command (interval 10, count 3, add 0). -/
theorem compressed_step_command_spacing_witness :
    (⟨10, 3, 0⟩ : CompressedStepCommand) ∈ compressStepTimes [0, 10, 20, 31, 33] ∧
    1 ≤ (10 : Int) + ((3 - 1 : Nat) : Int) * 0 :=
  ⟨by decide, compressed_step_command_spacing [0, 10, 20, 31, 33]
    (by simp [List.chain'_cons]) ⟨10, 3, 0⟩ (by decide)⟩

/-- Witness for the amended C2: a setup call and an in-range
`gpio_peripheral` call on the concrete state perform no out-of-range
access. -/
theorem gpio_indices_checked_amended_witness :
    gpio_out_setup 65 1 st0 ≠ GpioResult.oob ∧
    gpio_peripheral 66 5 66 1 st0 ≠ none :=
  ⟨gpio_indices_checked_amended.1 65 1 st0 (by decide),
   gpio_indices_checked_amended.2.2 66 5 66 1 st0 (by decide) (by decide)⟩
